import Mathlib

/-!
Verification of the buildah `imagebuildah` build engine
(`imagebuildah/build.go`) against its natural-language specification.

The Go source is shallowly embedded: Go strings become `List Char`, Go maps
become update functions or association lists, fallible calls become
`Except`/`Option`, and external collaborators (image store, OCI runtime,
Dockerfile parser) are passed in as explicit parameters.  Each definition
carries a comment pointing at the lines of `imagebuildah/build.go` it embeds.
-/

/-- Go strings, embedded byte-by-byte (all inputs of interest are ASCII). -/
abbrev GoStr := List Char

/-- `strings.Contains(s, sub)`: `sub` occurs as a contiguous substring of `s`.
Mirrors the Go stdlib semantics; `Contains(s, "")` is `true`. -/
def goContains (s sub : GoStr) : Bool :=
  match s with
  | [] => sub.isEmpty
  | _ :: t => sub.isPrefixOf s || goContains t sub

/-- `os.PathSeparator` on linux. -/
def pathSeparator : Char := '/'

/- ------------------------------------------------------------------
C2: StageExecutor.Run, build.go lines 534-587.

The volume-cache save/run/restore sequencing at the end of `Run`:

  if err := s.volumeCacheSave(); err != nil; return err
  err := s.builder.Run(args, options)
  if err2 := s.volumeCacheRestore(); err2 != nil
      if err == nil; return err2
  return err

The three external effects are represented by their outcomes (`none` =
success, `some e` = the Go error value); the sequencing is captured by
recording whether the restore step was reached.
------------------------------------------------------------------ -/

/-- Result of `StageExecutor.Run`: whether `volumeCacheRestore` was executed,
and the error value the method returns (`none` = nil). -/
structure RunOutcome (E : Type) where
  restoreRan : Bool
  result : Option E
deriving DecidableEq

/-- `StageExecutor.Run`, build.go lines 577-586, as a function of the
outcomes of `volumeCacheSave`, `builder.Run` and `volumeCacheRestore`. -/
def stageExecutorRun {E : Type} (saveRes runRes restoreRes : Option E) :
    RunOutcome E :=
  match saveRes with
  | some e => ⟨false, some e⟩
  | none =>
    match restoreRes with
    | some e2 =>
      match runRes with
      | none => ⟨true, some e2⟩
      | some e => ⟨true, some e⟩
    | none => ⟨true, runRes⟩

/-- **C2.** For every RUN instruction (whose `volumeCacheSave` succeeded, the
only path on which the run itself happens), the volume cache restore is
executed after the run regardless of whether the run failed; if the run
succeeded and the restore fails, the restore error is returned as the result
of the instruction; if the run itself failed, the run's error is returned and
any restore error is discarded. -/
theorem run_restore_error_policy {E : Type} (runRes restoreRes : Option E) :
    (stageExecutorRun none runRes restoreRes).restoreRan = true ∧
    (runRes = none →
      (stageExecutorRun none runRes restoreRes).result = restoreRes) ∧
    (∀ e, runRes = some e →
      (stageExecutorRun none runRes restoreRes).result = some e) := by
  refine ⟨?_, ?_, ?_⟩ <;>
    cases runRes <;> cases restoreRes <;> simp [stageExecutorRun]

/-- Witness for `run_restore_error_policy` at concrete error values: a failed
restore after a successful run surfaces the restore error, and a failed
restore after a failed run is discarded. -/
theorem run_restore_error_policy_witness :
    (stageExecutorRun (E := Nat) none none (some 7)).result = some 7 ∧
    (stageExecutorRun (E := Nat) none (some 3) (some 7)).result = some 3 := by
  refine ⟨?_, ?_⟩
  · exact (run_restore_error_policy (E := Nat) none (some 7)).2.1 rfl
  · exact (run_restore_error_policy (E := Nat) (some 3) (some 7)).2.2 3 rfl

/- ------------------------------------------------------------------
C3 / C9: historyMatches (build.go lines 1107-1120), getCreatedBy
(lines 1096-1101) and the history access in layerExists (lines 1056-1072).

  i := len(history) - 1
  for j := len(children) - 1; j >= 0; j--
      instruction := children[j].Original
      if children[j].Value == "run"
          instruction = instruction[4:]
      if !strings.Contains(history[i].CreatedBy, instruction)
          return false
      i--
  return true

The walk pairs the tails of the two sequences.  `history[i]` is evaluated
with no bounds check: once `i` drops below zero Go panics with an
index-out-of-range runtime error, embedded here as the `none` result.
Walking both lists from the tail is embedded by recursing on the reversed
lists.
------------------------------------------------------------------ -/

/-- One entry of an OCI image history (`v1.History`); only the `created_by`
string takes part in `historyMatches`. -/
structure HistoryEntry where
  createdBy : GoStr
deriving DecidableEq

/-- A Dockerfile instruction node (`parser.Node`); `value` is the lowercased
command, `original` the full original line. -/
structure ParserNode where
  value : GoStr
  original : GoStr
deriving DecidableEq

/-- The instruction text compared against `created_by`: `children[j].Original`
with the first 4 bytes (the leading "RUN " token) dropped when the node is a
`run` node — build.go lines 1110-1113. -/
def stripRunToken (n : ParserNode) : GoStr :=
  if n.value = "run".toList then n.original.drop 4 else n.original

/-- `getCreatedBy`, build.go lines 1096-1101: the `created_by` string recorded
when committing the image for `node`. -/
def getCreatedBy (n : ParserNode) : GoStr :=
  if n.value = "run".toList then "/bin/sh -c ".toList ++ n.original.drop 4
  else "/bin/sh -c #(nop) ".toList ++ n.original

/-- Tail-recursive core of `historyMatches`, consuming both sequences
reversed (so the head is the last element).  `none` models the Go runtime
panic from reading `history[i]` at a negative index. -/
def historyMatchesAux :
    List ParserNode → List HistoryEntry → Option Bool
  | [], _ => some true
  | _ :: _, [] => none
  | c :: cs, h :: hs =>
    if goContains h.createdBy (stripRunToken c) then historyMatchesAux cs hs
    else some false

/-- `historyMatches`, build.go lines 1107-1120.  `some b` is the Go return
value; `none` is the index-out-of-range panic. -/
def historyMatches (children : List ParserNode)
    (history : List HistoryEntry) : Option Bool :=
  historyMatchesAux children.reverse history.reverse

/-- The history access `history[len(history)-1].Created` performed by
`layerExists` (build.go line 1065) after `historyMatches` approves, with the
panic on an empty history modelled as `none`. -/
def layerExistsHistoryCheck (children : List ParserNode)
    (currNode : ParserNode) (history : List HistoryEntry) : Option Bool :=
  match historyMatches (children ++ [currNode]) history with
  | none => none
  | some false => some false
  | some true =>
    match history.getLast? with
    | none => none
    | some _ => some true

theorem historyMatchesAux_eq_all (rc : List ParserNode)
    (rh : List HistoryEntry) (hlen : rc.length ≤ rh.length) :
    (historyMatchesAux rc rh = some true ↔
      (rc.zip rh).all
        (fun p => goContains p.2.createdBy (stripRunToken p.1)) = true) := by
  induction rc generalizing rh with
  | nil => simp [historyMatchesAux]
  | cons c cs ih =>
    cases rh with
    | nil => simp at hlen
    | cons h hs =>
      simp only [historyMatchesAux, List.zip_cons_cons, List.all_cons]
      by_cases hc : goContains h.createdBy (stripRunToken c) = true
      · rw [if_pos hc, hc]
        simpa using ih hs (by simpa using hlen)
      · rw [if_neg hc]
        simp only [Bool.not_eq_true] at hc
        simp [hc]

theorem historyMatchesAux_isSome (rc : List ParserNode)
    (rh : List HistoryEntry) (hlen : rc.length ≤ rh.length) :
    (historyMatchesAux rc rh).isSome = true := by
  induction rc generalizing rh with
  | nil => simp [historyMatchesAux]
  | cons c cs ih =>
    cases rh with
    | nil => simp at hlen
    | cons h hs =>
      simp only [historyMatchesAux]
      by_cases hc : goContains h.createdBy (stripRunToken c) = true
      · rw [if_pos hc]; exact ih hs (by simpa using hlen)
      · rw [if_neg hc]; rfl

theorem historyMatchesAux_true_length (rc : List ParserNode)
    (rh : List HistoryEntry)
    (h : historyMatchesAux rc rh = some true) : rc.length ≤ rh.length := by
  induction rc generalizing rh with
  | nil => simp
  | cons c cs ih =>
    cases rh with
    | nil => simp [historyMatchesAux] at h
    | cons hh hs =>
      simp only [historyMatchesAux] at h
      by_cases hc : goContains hh.createdBy (stripRunToken c) = true
      · rw [if_pos hc] at h
        have := ih hs h
        simpa using this
      · rw [if_neg hc] at h
        simp at h

/-- **C3 (amended).** The layer-cache history comparison walks the
instruction children and the image history from the tail in reverse pairs,
strips the leading "RUN " token from run instructions, and requires each
history entry's created_by string to contain the instruction text as a
substring: whenever the history covers the children, `historyMatches`
returns true exactly when every reverse tail pair passes that substring
test.  Because the containment must hold for the instruction text as given,
a history entry with extra surrounding text still matches, but appending
trailing whitespace to the instruction's original text invalidates the
match whenever the created_by entry does not contain the extended text. -/
theorem historyMatches_tail_substring (children : List ParserNode)
    (history : List HistoryEntry)
    (hlen : children.length ≤ history.length) :
    historyMatches children history = some true ↔
      (children.reverse.zip history.reverse).all
        (fun p => goContains p.2.createdBy (stripRunToken p.1)) = true := by
  unfold historyMatches
  exact historyMatchesAux_eq_all children.reverse history.reverse
    (by simpa using hlen)

/-- The run node "RUN echo a" and the history entry its commit records. -/
def cexRunNode : ParserNode := ⟨"run".toList, "RUN echo a".toList⟩

/-- `cexRunNode` with one trailing space appended to its original text. -/
def cexRunNodeWS : ParserNode := ⟨"run".toList, "RUN echo a ".toList⟩

/-- The history entry written when committing `cexRunNode`. -/
def cexHistoryEntry : HistoryEntry := ⟨getCreatedBy cexRunNode⟩

/-- **C3 counterexample.** Against the history entry recorded for
"RUN echo a" (created_by "/bin/sh -c echo a"), the unchanged instruction
matches, but the same instruction with trailing whitespace appended fails
the substring test: appending trailing whitespace *does* invalidate the
cache match, contrary to the claim. -/
theorem historyMatches_trailing_whitespace_invalidates :
    historyMatches [cexRunNode] [cexHistoryEntry] = some true ∧
    historyMatches [cexRunNodeWS] [cexHistoryEntry] = some false := by
  constructor <;> decide

/-- Witness for `historyMatches_tail_substring` at a concrete match. -/
theorem historyMatches_tail_substring_witness :
    ([cexRunNode].length ≤ [cexHistoryEntry].length) ∧
    (historyMatches [cexRunNode] [cexHistoryEntry] = some true ↔
      (([cexRunNode].reverse.zip [cexHistoryEntry].reverse).all
        (fun p => goContains p.2.createdBy (stripRunToken p.1)) = true)) :=
  ⟨by decide, historyMatches_tail_substring [cexRunNode] [cexHistoryEntry]
    (by decide)⟩

/-- **C9 (amended).** `historyMatches` performs no bounds check on its
history index and is total exactly under the precondition that the history
is at least as long as the children: (a) when the history covers the
children the walk never panics; (b) with more children than history entries
it can never return true — it either reads the history at a negative index
(modelled `none`) or returns false on a mismatch found before the index
goes negative; (c) on an empty history with at least one child the very
first iteration reads a negative index; (d) a true result on a non-empty
children list forces the history to be non-empty; hence (e) the unguarded
read of the last history entry in `layerExists`, reached only after
`historyMatches` approved the children list extended with the current
node, never panics on its own: any panic of the combined check is already
a panic of `historyMatches`. -/
theorem historyMatches_bounds (children : List ParserNode)
    (history : List HistoryEntry) :
    (children.length ≤ history.length →
      (historyMatches children history).isSome = true) ∧
    (history.length < children.length →
      historyMatches children history ≠ some true) ∧
    (history = [] → children ≠ [] →
      historyMatches children history = none) ∧
    (historyMatches children history = some true → children ≠ [] →
      history ≠ []) ∧
    (∀ currNode, layerExistsHistoryCheck children currNode history = none →
      historyMatches (children ++ [currNode]) history = none) := by
  have hlast : ∀ (currNode : ParserNode),
      historyMatches (children ++ [currNode]) history = some true →
      history ≠ [] := by
    intro cn htrue hhist
    subst hhist
    have := historyMatchesAux_true_length (children ++ [cn]).reverse
      [].reverse htrue
    simp at this
  refine ⟨?_, ?_, ?_, ?_, ?_⟩
  pick_goal 5
  · intro cn h
    unfold layerExistsHistoryCheck at h
    cases hm : historyMatches (children ++ [cn]) history with
    | none => rfl
    | some b =>
      rw [hm] at h
      cases b with
      | false => exact absurd h (by simp)
      | true =>
        exfalso
        have hne := hlast cn hm
        cases hl : history.getLast? with
        | none => exact hne (List.getLast?_eq_none_iff.mp hl)
        | some e => rw [hl] at h; exact absurd h (by simp)
  · intro hlen
    exact historyMatchesAux_isSome children.reverse history.reverse
      (by simpa using hlen)
  · intro hlen htrue
    have := historyMatchesAux_true_length children.reverse history.reverse
      htrue
    simp at this
    omega
  · intro hhist hch
    subst hhist
    unfold historyMatches
    cases hrc : children.reverse with
    | nil => exact absurd (by simpa using hrc) hch
    | cons c cs => simp [historyMatchesAux]
  · intro htrue hch hhist
    subst hhist
    have := historyMatchesAux_true_length children.reverse [].reverse htrue
    simp at this
    exact hch (by simpa using this)

/-- **C9 counterexample.** A concrete input with more children than history
entries on which the reverse walk returns false on its first comparison and
never reads a negative index: the universally quantified claim is false. -/
theorem historyMatches_early_mismatch_no_panic :
    historyMatches
        [⟨"from".toList, "FROM busybox".toList⟩,
         ⟨"copy".toList, "COPY a b".toList⟩]
        [⟨"unrelated".toList⟩] = some false ∧
    ([⟨"from".toList, "FROM busybox".toList⟩,
      (⟨"copy".toList, "COPY a b".toList⟩ : ParserNode)].length >
      ([⟨"unrelated".toList⟩] : List HistoryEntry).length) := by
  constructor <;> decide

/-- Witness for `historyMatches_bounds`: on an empty history with one child
the walk panics, and a covered walk never panics. -/
theorem historyMatches_bounds_witness :
    historyMatches [cexRunNode] [] = none ∧
    (historyMatches [cexRunNode] [cexHistoryEntry]).isSome = true :=
  ⟨(historyMatches_bounds [cexRunNode] []).2.2.1 rfl (by decide),
   (historyMatches_bounds [cexRunNode] [cexHistoryEntry]).1 (by decide)⟩

/- ------------------------------------------------------------------
C4: the layered-mode body of StageExecutor.Execute, build.go lines 851-996.

Per instruction i of n (with r = number of instructions after i):

  if checkForLayers && s.executor.useCache
      cacheID = s.layerExists(...)                  -- the cache probe
  if cacheID != "" && i == len(children)-1
      copyExistingImage(...); break                 -- hit on the final step
  if cacheID == "" || !checkForLayers
      checkForLayers = false
      ib.Run(step, ...)                             -- execute the instruction
  if cacheID == ""
      s.Commit(...)                                 -- commit a fresh layer
  else
      imgID = cacheID

The probe result is an oracle `cacheHit : Nat → Bool` (true = layerExists
found a matching image); all fallible externals are taken to succeed, since
any error aborts the stage.  Each step is summarised by whether the cache
was consulted, whether the instruction was executed, and whether a fresh
commit was made.
------------------------------------------------------------------ -/

/-- What the Execute loop did for one instruction: whether it consulted the
layer cache, whether it dispatched the instruction to `ib.Run`, and whether
it committed a fresh layer. -/
structure StepRecord where
  probed : Bool
  ran : Bool
  committed : Bool
deriving DecidableEq

/-- The layered-mode Execute loop from instruction `i` with `r` instructions
remaining and cache-checking flag `checkForLayers`; build.go lines 858-989.
A hit on the final step takes the `copyExistingImage` early exit. -/
def executeSteps (useCache : Bool) (cacheHit : Nat → Bool) :
    Nat → Nat → Bool → List StepRecord
  | _, 0, _ => []
  | i, r + 1, checkForLayers =>
    let probed := checkForLayers && useCache
    let hit := probed && cacheHit i
    if hit && r == 0 then
      [⟨probed, false, false⟩]
    else
      ⟨probed, !hit || !checkForLayers, !hit⟩ ::
        executeSteps useCache cacheHit (i + 1) r
          (if !hit || !checkForLayers then false else checkForLayers)

/-- A full stage: the loop starts at instruction 0 with `checkForLayers`
true (build.go line 854). -/
def executeTrace (useCache : Bool) (cacheHit : Nat → Bool) (n : Nat) :
    List StepRecord :=
  executeSteps useCache cacheHit 0 n true

theorem executeSteps_succ (u : Bool) (o : Nat → Bool) (i r : Nat)
    (cfl : Bool) :
    executeSteps u o i (r + 1) cfl =
      if ((cfl && u) && o i) && r == 0 then
        [⟨cfl && u, false, false⟩]
      else
        ⟨cfl && u, !((cfl && u) && o i) || !cfl, !((cfl && u) && o i)⟩ ::
          executeSteps u o (i + 1) r
            (if !((cfl && u) && o i) || !cfl then false else cfl) := rfl

theorem executeSteps_cfl_false (u : Bool) (o : Nat → Bool) :
    ∀ (r i j : Nat), j < r →
      (executeSteps u o i r false)[j]? = some ⟨false, true, true⟩ := by
  intro r
  induction r with
  | zero => intro i j hj; omega
  | succ r ih =>
    intro i j hj
    rw [executeSteps_succ]
    simp only [Bool.false_and, Bool.and_false, Bool.false_eq_true,
      Bool.not_false, Bool.true_or, if_true, if_false]
    cases j with
    | zero => exact List.getElem?_cons_zero
    | succ j =>
      rw [List.getElem?_cons_succ]
      exact ih (i + 1) j (by omega)

theorem executeSteps_miss_disables (u : Bool) (o : Nat → Bool) :
    ∀ (j i r : Nat) (cfl : Bool) (rec : StepRecord),
      (executeSteps u o i r cfl)[j]? = some rec → o (i + j) = false →
      ∀ m, j < m → m < r →
        (executeSteps u o i r cfl)[m]? = some ⟨false, true, true⟩ := by
  intro j
  induction j with
  | zero =>
    intro i r cfl rec hk hmiss m hjm hmr
    cases r with
    | zero => omega
    | succ r =>
      have hhit : ((cfl && u) && o i) = false := by
        rw [show o i = false by simpa using hmiss, Bool.and_false]
      rw [executeSteps_succ, hhit] at hk ⊢
      simp only [Bool.false_and, Bool.false_eq_true, if_false,
        Bool.not_false, Bool.true_or, if_true] at hk ⊢
      cases m with
      | zero => omega
      | succ m =>
        rw [List.getElem?_cons_succ]
        exact executeSteps_cfl_false u o r (i + 1) m (by omega)
  | succ j ih =>
    intro i r cfl rec hk hmiss m hjm hmr
    cases r with
    | zero => omega
    | succ r =>
      rw [executeSteps_succ] at hk ⊢
      by_cases hbr : (((cfl && u) && o i) && r == 0) = true
      · rw [if_pos hbr] at hk
        rw [List.getElem?_cons_succ] at hk
        simp at hk
      · rw [if_neg hbr] at hk ⊢
        rw [List.getElem?_cons_succ] at hk
        cases m with
        | zero => omega
        | succ m =>
          rw [List.getElem?_cons_succ]
          exact ih (i + 1) r _ rec hk
            (by rw [show i + 1 + j = i + (j + 1) by omega]; exact hmiss)
            m (by omega) (by omega)

/-- **C4.** Within a single stage's Execute loop, once a cache probe misses
(the step consulted the cache and `layerExists` found nothing), every later
instruction of that stage never consults the layer cache again and is
executed and committed fresh. -/
theorem execute_miss_stops_cache_use (u : Bool) (o : Nat → Bool)
    (n k m : Nat) (r : StepRecord)
    (hk : (executeTrace u o n)[k]? = some r)
    (hprobe : r.probed = true) (hmiss : o k = false)
    (hkm : k < m) (hmn : m < n) :
    (executeTrace u o n)[m]? = some ⟨false, true, true⟩ := by
  have := executeSteps_miss_disables u o k 0 n true r hk
    (by simpa using hmiss) m hkm hmn
  exact this

/-- Witness for `execute_miss_stops_cache_use`: a three-step stage whose
probes always miss probes at step 0 and thereafter runs fresh. -/
theorem execute_miss_stops_cache_use_witness :
    (executeTrace true (fun _ => false) 3)[0]? = some ⟨true, true, true⟩ ∧
    (executeTrace true (fun _ => false) 3)[2]? = some ⟨false, true, true⟩ :=
  ⟨rfl, execute_miss_stops_cache_use true (fun _ => false) 3 0 2
    ⟨true, true, true⟩ rfl rfl rfl (by omega) (by omega)⟩

/- ------------------------------------------------------------------
C1: the commit-name computation in StageExecutor.Execute (build.go lines
917-925) and Executor.resolveNameToImageRef (lines 820-848).

  if i < len(children)-1
      commitName = ""
  else
      commitName = s.output
  // TODO: this makes the tests happy, but it shouldn't be
  // necessary unless this is the final stage.
  commitName = s.executor.output

The conditional assignment is dead: line 925 overrides it unconditionally,
so every commit in layered mode receives the executor's global output name.
`resolveNameToImageRef` parses a non-empty name through the transports
(falling back to store-name resolution), and only for the empty name mints
a store reference from a freshly generated random id.
------------------------------------------------------------------ -/

/-- The value the conditional at build.go lines 917-921 computes before it
is overridden: empty on intermediate steps, the stage output on the final
step. -/
def commitNameBeforeOverride (stageOutput : GoStr) (i n : Nat) : GoStr :=
  if i < n - 1 then [] else stageOutput

/-- The commit name actually passed to `Commit` for step `i` of `n`,
build.go lines 917-925: the conditional value is computed and then
unconditionally replaced by `s.executor.output` (line 925). -/
def commitNameForStep (stageOutput executorOutput : GoStr) (i n : Nat) :
    GoStr :=
  let _dead := commitNameBeforeOverride stageOutput i n
  executorOutput

/-- The reference kinds `resolveNameToImageRef` can produce. -/
inductive ImageRef where
  | transportRef (name : GoStr)
  | storeRef (candidate : GoStr)
  | randomId
deriving DecidableEq

/-- `Executor.resolveNameToImageRef`, build.go lines 820-848.
`parseImageName` stands for `alltransports.ParseImageName` succeeding,
`resolveCandidates` for `util.ResolveName`, and `storeParseOk` for
`is.Transport.ParseStoreReference` succeeding on the "@"-random-id
reference; `none` is the error return. -/
def resolveNameToImageRef (parseImageName : GoStr → Bool)
    (resolveCandidates : GoStr → List GoStr) (storeParseOk : Bool)
    (output : GoStr) : Option ImageRef :=
  if output ≠ [] then
    if parseImageName output then some (.transportRef output)
    else
      match resolveCandidates output with
      | [] => none
      | c :: _ => some (.storeRef c)
  else
    if storeParseOk then some .randomId else none

/-- **C1 counterexample.** In layered mode with output name "final", the
commit on the intermediate step 0 of a 2-instruction stage passes "final",
not the empty name the claim requires (the conditional at lines 917-921
would have produced the empty name, but line 925 overrides it). -/
theorem commitName_intermediate_not_empty :
    commitNameForStep "final".toList "final".toList 0 2 = "final".toList ∧
    "final".toList ≠ ([] : GoStr) ∧
    commitNameBeforeOverride "final".toList 0 2 = [] := by
  refine ⟨rfl, by decide, by decide⟩

/-- **C1 (amended).** In layered mode, for every instruction executed
without a cache hit, the commit — on final and intermediate steps alike —
passes the executor's global output name, because the per-step conditional
is unconditionally overridden at build.go line 925; consequently
`resolveNameToImageRef` mints a random-id store reference exactly for
commits of builds whose output name is empty, and never for a non-empty
output name. -/
theorem commitName_always_executor_output (stageOutput executorOutput : GoStr)
    (i n : Nat) (parseImageName : GoStr → Bool)
    (resolveCandidates : GoStr → List GoStr) :
    commitNameForStep stageOutput executorOutput i n = executorOutput ∧
    (executorOutput = [] →
      resolveNameToImageRef parseImageName resolveCandidates true
        executorOutput = some .randomId) ∧
    (∀ ref, resolveNameToImageRef parseImageName resolveCandidates true
        executorOutput = some ref → ref = .randomId → executorOutput = []) := by
  refine ⟨rfl, ?_, ?_⟩
  · intro hempty
    simp [resolveNameToImageRef, hempty]
  · intro ref href hrand
    subst hrand
    by_cases hout : executorOutput = []
    · exact hout
    · exfalso
      simp only [resolveNameToImageRef, ne_eq, hout, not_false_iff,
        if_true] at href
      by_cases hp : parseImageName executorOutput = true
      · rw [if_pos hp] at href
        simp at href
      · rw [if_neg hp] at href
        cases hres : resolveCandidates executorOutput with
        | nil => rw [hres] at href; simp at href
        | cons c cs => rw [hres] at href; simp at href

/-- Witness for `commitName_always_executor_output`: with an empty output
name the random-id reference is minted, and a random-id result implies the
name was empty. -/
theorem commitName_always_executor_output_witness :
    commitNameForStep [] [] 0 2 = [] ∧
    resolveNameToImageRef (fun _ => false) (fun _ => []) true [] =
      some .randomId :=
  ⟨(commitName_always_executor_output [] [] 0 2 (fun _ => false)
      (fun _ => [])).1,
   (commitName_always_executor_output [] [] 0 2 (fun _ => false)
      (fun _ => [])).2.1 rfl⟩

/- ------------------------------------------------------------------
C6: Executor.startStage, build.go lines 266-287.

  stage := &StageExecutor{ executor: b, index: index, stages: stages,
                           name: name, ..., output: output }
  b.stages[name] = stage
  b.stages[from] = stage
  if idx := strconv.Itoa(index); idx != name
      b.stages[idx] = stage

The stages map is embedded as a function from string keys to an optional
stage value; the stage value records the fields the constructor sets.
------------------------------------------------------------------ -/

/-- The per-stage record created by `startStage` (pointer identity is
embedded as equality of the constructed record). -/
structure StageExec where
  index : Nat
  stagesTotal : Nat
  name : GoStr
  output : GoStr
deriving DecidableEq

/-- Go map assignment `m[k] = v`. -/
def mapSet (m : GoStr → Option StageExec) (k : GoStr) (v : StageExec) :
    GoStr → Option StageExec :=
  fun k' => if k' = k then some v else m k'

/-- `strconv.Itoa` for the (non-negative) stage index. -/
def itoa (n : Nat) : GoStr := (Nat.repr n).data

/-- `Executor.startStage`, build.go lines 268-287: create the stage record
and index it in the stages map under its name, its base image, and (when
different from the name) its numeric index. -/
def startStage (m : GoStr → Option StageExec) (name : GoStr)
    (index stagesTotal : Nat) (fromName output : GoStr) :
    (GoStr → Option StageExec) × StageExec :=
  let stage : StageExec := ⟨index, stagesTotal, name, output⟩
  let m1 := mapSet m name stage
  let m2 := mapSet m1 fromName stage
  let m3 := if itoa index ≠ name then mapSet m2 (itoa index) stage else m2
  (m3, stage)

theorem mapSet_self (m : GoStr → Option StageExec) (k : GoStr)
    (v : StageExec) : mapSet m k v k = some v := by
  simp [mapSet]

theorem mapSet_other (m : GoStr → Option StageExec) (k k' : GoStr)
    (v : StageExec) (h : k' ≠ k) : mapSet m k v k' = m k' := by
  simp [mapSet, h]

/-- **C6.** `startStage` indexes the freshly created stage record in the
stages map under up to three keys when distinct — the stage's AS-name, the
base image it was built FROM, and its numeric index as a string — and a
`--from=X` lookup under any of those keys in the resulting map resolves to
that same stage record; every other key is untouched. -/
theorem startStage_three_keys (m : GoStr → Option StageExec) (name : GoStr)
    (index stagesTotal : Nat) (fromName output : GoStr) :
    (startStage m name index stagesTotal fromName output).1 name =
        some (startStage m name index stagesTotal fromName output).2 ∧
    (startStage m name index stagesTotal fromName output).1 fromName =
        some (startStage m name index stagesTotal fromName output).2 ∧
    (startStage m name index stagesTotal fromName output).1 (itoa index) =
        some (startStage m name index stagesTotal fromName output).2 ∧
    (∀ k, (startStage m name index stagesTotal fromName output).1 k = m k ∨
      (startStage m name index stagesTotal fromName output).1 k =
        some (startStage m name index stagesTotal fromName output).2) := by
  unfold startStage
  simp only []
  by_cases hin : itoa index ≠ name
  · rw [if_pos hin]
    refine ⟨?_, ?_, ?_, ?_⟩
    · rw [mapSet_other _ _ _ _ (fun h => hin h.symm)]
      by_cases hnf : name = fromName
      · rw [hnf, mapSet_self]
      · rw [mapSet_other _ _ _ _ hnf, mapSet_self]
    · by_cases hfi : fromName = itoa index
      · rw [hfi, mapSet_self]
      · rw [mapSet_other _ _ _ _ hfi, mapSet_self]
    · exact mapSet_self _ _ _
    · intro k
      by_cases hki : k = itoa index
      · right; rw [hki, mapSet_self]
      · rw [mapSet_other _ _ _ _ hki]
        by_cases hkf : k = fromName
        · right; rw [hkf, mapSet_self]
        · rw [mapSet_other _ _ _ _ hkf]
          by_cases hkn : k = name
          · right; rw [hkn, mapSet_self]
          · left; rw [mapSet_other _ _ _ _ hkn]
  · rw [if_neg hin]
    rw [not_not] at hin
    refine ⟨?_, ?_, ?_, ?_⟩
    · by_cases hnf : name = fromName
      · rw [hnf, mapSet_self]
      · rw [mapSet_other _ _ _ _ hnf, mapSet_self]
    · exact mapSet_self _ _ _
    · rw [hin]
      by_cases hnf : name = fromName
      · rw [hnf, mapSet_self]
      · rw [mapSet_other _ _ _ _ hnf, mapSet_self]
    · intro k
      by_cases hkf : k = fromName
      · right; rw [hkf, mapSet_self]
      · rw [mapSet_other _ _ _ _ hkf]
        by_cases hkn : k = name
        · right; rw [hkn, mapSet_self]
        · left; rw [mapSet_other _ _ _ _ hkn]

/- ------------------------------------------------------------------
C7: the unused-build-arg bookkeeping: builtinAllowedBuildArgs (build.go
lines 255-264), NewExecutor (lines 675-679), the ARG consumption in
Execute (lines 872-879), and the warning in Build (lines 1416-1423).

  NewExecutor:  for arg := range options.Args
                    if _, isBuiltIn := builtinAllowedBuildArgs[arg]; !isBuiltIn
                        exec.unusedArgs[arg] = struct{}{}
  Execute:      if step.Command == "arg"
                    for _, Arg := range step.Args
                        list := strings.SplitN(Arg, "=", 2)
                        delete(s.executor.unusedArgs, list[0])
  Build:        if len(b.unusedArgs) > 0
                    unusedList ... (all keys) ; sort.Strings(unusedList)
                    fmt.Fprintf(b.out, "[Warning] one or more build args "...)

The unusedArgs set is embedded as a duplicate-free list of names (keys of
the user's build-arg map); the single `Fprintf` is embedded as the list of
warning lines Build emits, each line carrying the printed name list.
------------------------------------------------------------------ -/

/-- `builtinAllowedBuildArgs`, build.go lines 255-264: the proxy allow-list
whose members are never counted as unused. -/
def builtinAllowedBuildArgs : List GoStr :=
  ["HTTP_PROXY".toList, "http_proxy".toList, "HTTPS_PROXY".toList,
   "https_proxy".toList, "FTP_PROXY".toList, "ftp_proxy".toList,
   "NO_PROXY".toList, "no_proxy".toList]

/-- The `unusedArgs` set built by `NewExecutor`, build.go lines 675-679:
every user-supplied arg name that is not in the allow-list. -/
def initUnusedArgs (args : List GoStr) : List GoStr :=
  args.filter (fun a => decide (a ∉ builtinAllowedBuildArgs))

/-- `strings.SplitN(arg, "=", 2)[0]`: the declared name of an `ARG`
argument, build.go line 874. -/
def argDeclName (argSpec : GoStr) : GoStr :=
  argSpec.takeWhile (fun c => decide (c ≠ '='))

/-- `delete(s.executor.unusedArgs, list[0])`, build.go lines 875-877. -/
def consumeArg (unused : List GoStr) (argSpec : GoStr) : List GoStr :=
  unused.filter (fun u => decide (u ≠ argDeclName argSpec))

/-- The cumulative effect on `unusedArgs` of all `ARG` instruction
arguments processed over the whole build. -/
def consumeArgs (unused : List GoStr) (argSpecs : List GoStr) : List GoStr :=
  argSpecs.foldl consumeArg unused

/-- Go's `sort.Strings`: lexicographic byte-wise comparison. -/
def goStringLe : GoStr → GoStr → Bool
  | [], _ => true
  | _ :: _, [] => false
  | a :: as, b :: bs => if a = b then goStringLe as bs else decide (a < b)

/-- `sort.Strings(unusedList)`, build.go line 1421. -/
def sortStrings (l : List GoStr) : List GoStr := l.mergeSort goStringLe

/-- The warning lines Build prints for unused args, build.go lines
1416-1423: nothing when the set is empty, otherwise exactly one line
carrying the sorted name list. -/
def unusedArgsWarning (unused : List GoStr) : List (List GoStr) :=
  if unused.isEmpty then [] else [sortStrings unused]

theorem goStringLe_trans (a b c : GoStr) (hab : goStringLe a b = true)
    (hbc : goStringLe b c = true) : goStringLe a c = true := by
  induction a generalizing b c with
  | nil => rfl
  | cons x xs ih =>
    cases b with
    | nil => simp [goStringLe] at hab
    | cons y ys =>
      cases c with
      | nil => simp [goStringLe] at hbc
      | cons z zs =>
        simp only [goStringLe] at hab hbc ⊢
        by_cases hxy : x = y
        · subst hxy
          rw [if_pos rfl] at hab
          by_cases hxz : x = z
          · subst hxz
            rw [if_pos rfl] at hbc
            rw [if_pos rfl]
            exact ih ys zs hab hbc
          · rw [if_neg hxz] at hbc
            rw [if_neg hxz]
            exact hbc
        · rw [if_neg hxy] at hab
          have hlt : x < y := of_decide_eq_true hab
          by_cases hyz : y = z
          · subst hyz
            have hxz : x ≠ y := ne_of_lt hlt
            rw [if_neg hxz]
            exact decide_eq_true hlt
          · rw [if_neg hyz] at hbc
            have hlt2 : y < z := of_decide_eq_true hbc
            have hxz : x < z := lt_trans hlt hlt2
            rw [if_neg (ne_of_lt hxz)]
            exact decide_eq_true hxz

theorem goStringLe_total (a b : GoStr) :
    (goStringLe a b || goStringLe b a) = true := by
  induction a generalizing b with
  | nil => rfl
  | cons x xs ih =>
    cases b with
    | nil => rfl
    | cons y ys =>
      simp only [goStringLe]
      by_cases hxy : x = y
      · subst hxy
        rw [if_pos rfl, if_pos rfl]
        exact ih ys
      · rw [if_neg hxy, if_neg (Ne.symm hxy)]
        rcases lt_or_gt_of_ne hxy with h | h
        · rw [decide_eq_true h]; rfl
        · rw [decide_eq_true h, Bool.or_true]

theorem consumeArgs_subset (argSpecs : List GoStr) (unused : List GoStr)
    (x : GoStr) (hx : x ∈ consumeArgs unused argSpecs) : x ∈ unused := by
  induction argSpecs generalizing unused with
  | nil => exact hx
  | cons s ss ih =>
    have := ih (consumeArg unused s) hx
    exact (List.mem_filter.mp this).1

/-- **C7.** After all stages complete: proxy allow-list names are never in
the unused-args set; when the set is empty no warning is printed; when it
is non-empty exactly one warning line is printed, listing precisely the
unconsumed non-builtin arg names, sorted lexicographically. -/
theorem unused_args_warning_correct (args argSpecs : List GoStr) :
    (∀ p, p ∈ builtinAllowedBuildArgs →
      p ∉ consumeArgs (initUnusedArgs args) argSpecs) ∧
    (consumeArgs (initUnusedArgs args) argSpecs = [] →
      unusedArgsWarning (consumeArgs (initUnusedArgs args) argSpecs) = []) ∧
    (consumeArgs (initUnusedArgs args) argSpecs ≠ [] →
      unusedArgsWarning (consumeArgs (initUnusedArgs args) argSpecs) =
        [sortStrings (consumeArgs (initUnusedArgs args) argSpecs)]) ∧
    (sortStrings (consumeArgs (initUnusedArgs args) argSpecs)).Perm
      (consumeArgs (initUnusedArgs args) argSpecs) ∧
    List.Pairwise (fun a b => goStringLe a b = true)
      (sortStrings (consumeArgs (initUnusedArgs args) argSpecs)) := by
  refine ⟨?_, ?_, ?_, ?_, ?_⟩
  · intro p hp hmem
    have hinit := consumeArgs_subset argSpecs (initUnusedArgs args) p hmem
    have := (List.mem_filter.mp hinit).2
    rw [decide_eq_true_eq] at this
    exact this hp
  · intro hempty
    simp [unusedArgsWarning, hempty]
  · intro hne
    rw [unusedArgsWarning, if_neg (by simpa using hne)]
  · exact List.mergeSort_perm _ _
  · exact List.sorted_mergeSort goStringLe_trans goStringLe_total _

/-- Witness for `unused_args_warning_correct`: the options args FOO, BAR and
HTTP_PROXY with the Dockerfile consuming FOO leave exactly BAR unused:
HTTP_PROXY is never counted, and the single warning line is emitted. -/
theorem unused_args_warning_correct_witness :
    ("HTTP_PROXY".toList ∉
      consumeArgs
        (initUnusedArgs ["FOO".toList, "BAR".toList, "HTTP_PROXY".toList])
        ["FOO=1".toList]) ∧
    unusedArgsWarning
        (consumeArgs
          (initUnusedArgs ["FOO".toList, "BAR".toList, "HTTP_PROXY".toList])
          ["FOO=1".toList]) =
      [sortStrings
        (consumeArgs
          (initUnusedArgs ["FOO".toList, "BAR".toList, "HTTP_PROXY".toList])
          ["FOO=1".toList])] :=
  ⟨(unused_args_warning_correct
      ["FOO".toList, "BAR".toList, "HTTP_PROXY".toList]
      ["FOO=1".toList]).1 "HTTP_PROXY".toList (by decide),
   (unused_args_warning_correct
      ["FOO".toList, "BAR".toList, "HTTP_PROXY".toList]
      ["FOO=1".toList]).2.2.1 (by decide)⟩

/- ------------------------------------------------------------------
C5: the Dockerfile-opening loop of BuildDockerfiles, build.go lines
1461-1505, together with the github.com/pkg/errors semantics it relies on.

Remote branch (lines 1464-1474):
  resp, err := http.Get(dfile); if err != nil; return wrapped err
  if resp.ContentLength == 0; return errors.Errorf("no contents in %q", ...)

Local branch (lines 1476-1504):
  dinfo, err := os.Stat(dfile)
  if os.IsNotExist(err); dfile = filepath.Join(options.ContextDirectory, dfile)
  dinfo, err = os.Stat(dfile); if err != nil; return errors.Wrapf(err, ...)
  if dinfo.Mode().IsDir(); dfile = filepath.Join(dfile, "Dockerfile")
  contents, err := os.Open(dfile); if err != nil; return errors.Wrapf(err, ...)
  dinfo, err = contents.Stat(); if err != nil; return errors.Wrapf(err, ...)
  if dinfo.Mode().IsRegular() && dinfo.Size() == 0
      return "", nil, errors.Wrapf(err, "no contents in %q", dfile)

In the final branch `err` holds the (nil) result of the preceding
`contents.Stat()` call, and pkg/errors `Wrapf` returns nil when its error
argument is nil — so the function returns with a nil error.
------------------------------------------------------------------ -/

/-- Go error values as used here. -/
inductive GoErr where
  | notExist
  | errmsg (msg : GoStr)
  | wrapped (msg : GoStr) (cause : GoErr)
deriving DecidableEq

/-- `errors.Wrapf` from github.com/pkg/errors: returns nil when the wrapped
error is nil. -/
def wrapf (e : Option GoErr) (msg : GoStr) : Option GoErr :=
  match e with
  | none => none
  | some e => some (.wrapped msg e)

/-- `errors.Errorf` from github.com/pkg/errors: always a fresh non-nil
error. -/
def errorf (msg : GoStr) : Option GoErr := some (.errmsg msg)

/-- `os.IsNotExist`. -/
def goIsNotExist (e : GoErr) : Bool :=
  match e with
  | .notExist => true
  | _ => false

/-- The `os.FileInfo` facts the branch consults. -/
structure GoFileInfo where
  isDir : Bool
  isRegular : Bool
  size : Nat
deriving DecidableEq

/-- The filesystem calls the local branch makes, as explicit functions:
`stat` is `os.Stat`, `openFile` is `os.Open` (yielding a handle), `fstat`
is `File.Stat` on the open handle. -/
structure LocalFS where
  stat : GoStr → Except GoErr GoFileInfo
  openFile : GoStr → Except GoErr Nat
  fstat : Nat → Except GoErr GoFileInfo

/-- `filepath.Join` for the two joins the branch performs. -/
def goFilepathJoin (a b : GoStr) : GoStr := a ++ pathSeparator :: b

/-- What one iteration of the Dockerfile-opening loop does: either the
open data is kept for parsing, or `BuildDockerfiles` returns early with the
given error value — where `abort none` is an early return whose error is
nil. -/
inductive FileOutcome where
  | proceed (handle : Nat)
  | abort (e : Option GoErr)
deriving DecidableEq

/-- The local branch of the Dockerfile-opening loop, build.go lines
1476-1504. -/
def readLocalDockerfile (fs : LocalFS) (contextDir dfile : GoStr) :
    FileOutcome :=
  let dfile1 :=
    match fs.stat dfile with
    | .error e => if goIsNotExist e then goFilepathJoin contextDir dfile
                  else dfile
    | .ok _ => dfile
  match fs.stat dfile1 with
  | .error e => .abort (wrapf (some e) ("error reading info about".toList))
  | .ok dinfo =>
    let dfile2 := if dinfo.isDir then goFilepathJoin dfile1 "Dockerfile".toList
                  else dfile1
    match fs.openFile dfile2 with
    | .error e => .abort (wrapf (some e) ("error reading".toList))
    | .ok contents =>
      match fs.fstat contents with
      | .error e =>
        .abort (wrapf (some e) ("error reading info about".toList))
      | .ok dinfo2 =>
        if dinfo2.isRegular && dinfo2.size == 0 then
          .abort (wrapf none ("no contents in".toList))
        else .proceed contents

/-- The remote branch of the Dockerfile-opening loop, build.go lines
1464-1474, as a function of the `http.Get` outcome; `contentLength` is
`resp.ContentLength` (may be -1 when the length is unknown). -/
def readRemoteDockerfile (resp : Except GoErr (Int × Nat)) : FileOutcome :=
  match resp with
  | .error e => .abort (wrapf (some e) ("error getting".toList))
  | .ok (contentLength, body) =>
    if contentLength == 0 then .abort (errorf ("no contents in".toList))
    else .proceed body

/-- A filesystem holding exactly one regular zero-size file. -/
def emptyLocalFileFS : LocalFS where
  stat := fun _ => .ok ⟨false, true, 0⟩
  openFile := fun _ => .ok 1
  fstat := fun _ => .ok ⟨false, true, 0⟩

/-- **C5.** On an empty remote Dockerfile (Content-Length 0) the loop
aborts with a real error, but on an empty local regular file it takes the
`errors.Wrapf(err, "no contents in %q", ...)` return with `err == nil`, and
pkg/errors `Wrapf` maps nil to nil — `BuildDockerfiles` returns early with
a **nil** error, contradicting both the claim and the evident intent of the
branch. -/
theorem buildDockerfiles_empty_local_nil_error :
    readRemoteDockerfile (.ok (0, 2)) =
      .abort (errorf ("no contents in".toList)) ∧
    readLocalDockerfile emptyLocalFileFS "/ctx".toList "Dockerfile".toList =
      .abort none ∧
    (∀ msg : GoStr, wrapf none msg = none) :=
  ⟨rfl, rfl, fun _ => rfl⟩

/- ------------------------------------------------------------------
C10: processCopyFrom, build.go lines 1554-1622.

  func processCopyFrom(dockerfiles []io.ReadCloser) []io.ReadCloser
      var newDockerfiles []io.ReadCloser
      ... (fromMap / asMap persist across files) ...
      for _, dfile := range dockerfiles
          if dfileBinary, err := ioutil.ReadAll(dfile); err == nil
              ... appends synthetic FROM Dockerfiles, then the file itself ...
          // no else branch: a file whose read fails contributes nothing

The signature has no error result, and a file whose `ReadAll` fails is
silently skipped.  A read attempt is embedded as `Option content`
(`none` = read error); the per-file body (lines 1568-1618), which itself
contains no error path, is abstracted as a state-passing function `emit`
whose state stands for the `fromMap`/`asMap` accumulators and whose output
list is the synthetic `FROM` Dockerfiles followed by the file itself.
------------------------------------------------------------------ -/

/-- `processCopyFrom`, build.go lines 1554-1622: fold over the input
Dockerfiles, skipping every unreadable one and appending `emit`'s output
for every readable one.  The return type carries no error component,
mirroring the Go signature `[]io.ReadCloser` with no `error`. -/
def processCopyFrom {σ α : Type} (emit : σ → α → σ × List α) :
    σ → List (Option α) → List α
  | _, [] => []
  | st, none :: rest => processCopyFrom emit st rest
  | st, some d :: rest =>
    (emit st d).2 ++ processCopyFrom emit (emit st d).1 rest

/-- **C10.** `processCopyFrom` never reports an error: a Dockerfile whose
contents cannot be read is silently omitted — the output is identical to
the output on the input with that Dockerfile deleted — so the returned
list can be shorter than the input list (witnessed by the single
unreadable input producing the empty output) with no error surfaced. -/
theorem processCopyFrom_skips_unreadable {σ α : Type}
    (emit : σ → α → σ × List α) (st : σ)
    (before after : List (Option α)) :
    processCopyFrom emit st (before ++ none :: after) =
      processCopyFrom emit st (before ++ after) ∧
    processCopyFrom (fun (u : Unit) (a : α) => (u, [a])) () [none] = [] := by
  constructor
  · induction before generalizing st with
    | nil => rfl
    | cons b bs ih =>
      cases b with
      | none => simpa using ih st
      | some d => simpa [processCopyFrom] using ih (emit st d).1
  · rfl

/- ------------------------------------------------------------------
C8: StageExecutor.volumeCacheInvalidate, build.go lines 389-408.

  invalidated := []string{}
  for cachedPath := range s.volumeCache
      if strings.HasPrefix(path, cachedPath+string(os.PathSeparator))
          invalidated = append(invalidated, cachedPath)
  for _, cachedPath := range invalidated
      if err := os.Remove(s.volumeCache[cachedPath]); err != nil
          if os.IsNotExist(err)
              continue                       -- entry NOT deleted from the map
          return errors.Wrapf(err, "error removing volume cache %q", ...)
      ...
      delete(s.volumeCache, cachedPath)
  return nil

The volume cache map is an association list from volume path to
snapshot-file path.  `delete(s.volumeCache, cachedPath)` runs only when
`os.Remove` of the snapshot file succeeds: on IsNotExist the `continue`
skips the delete and the prefix-matching entry survives, and any other
removal error aborts the loop.  The `os.Remove` outcomes are supplied as
an oracle `removeFile` (`none` = removed, `some e` = the error); Go's
unspecified map iteration order is fixed to the list order, which the
proved statements do not depend on.
------------------------------------------------------------------ -/

/-- A list is never an initial segment of itself with one element appended. -/
theorem not_isPrefixOf_append_singleton (p : GoStr) (c : Char) :
    (p ++ [c]).isPrefixOf p = false := by
  rw [Bool.eq_false_iff]
  intro htrue
  have h' : (p ++ [c]) <+: p := List.isPrefixOf_iff_prefix.mp htrue
  have hlen := h'.length_le
  simp at hlen

/-- Go map deletion `delete(m, key)` on the association-list embedding. -/
def mapDelete (cache : List (GoStr × GoStr)) (key : GoStr) :
    List (GoStr × GoStr) :=
  cache.filter (fun ent => decide (ent.1 ≠ key))

/-- The second loop of `volumeCacheInvalidate`, build.go lines 396-406:
walk the invalidated entries; delete an entry from the map only when
removing its snapshot file succeeds; keep it on IsNotExist; abort with a
wrapped error otherwise. -/
def volumeCacheInvalidateLoop (removeFile : GoStr → Option GoErr) :
    List (GoStr × GoStr) → List (GoStr × GoStr) →
      Except GoErr (List (GoStr × GoStr))
  | cache, [] => .ok cache
  | cache, ent :: rest =>
    match removeFile ent.2 with
    | none => volumeCacheInvalidateLoop removeFile (mapDelete cache ent.1) rest
    | some e =>
      if goIsNotExist e then volumeCacheInvalidateLoop removeFile cache rest
      else .error (.wrapped ("error removing volume cache".toList) e)

/-- `StageExecutor.volumeCacheInvalidate`, build.go lines 389-408: collect
the entries whose path extended with the separator is an initial segment of
the destination, then run the removal loop over them. -/
def volumeCacheInvalidate (removeFile : GoStr → Option GoErr)
    (cache : List (GoStr × GoStr)) (path : GoStr) :
    Except GoErr (List (GoStr × GoStr)) :=
  volumeCacheInvalidateLoop removeFile cache
    (cache.filter (fun ent => (ent.1 ++ [pathSeparator]).isPrefixOf path))

theorem volumeCacheInvalidateLoop_success
    (cache inv : List (GoStr × GoStr)) :
    volumeCacheInvalidateLoop (fun _ => none) cache inv =
      .ok (inv.foldl (fun c e => mapDelete c e.1) cache) := by
  induction inv generalizing cache with
  | nil => rfl
  | cons e es ih => exact ih (mapDelete cache e.1)

theorem mem_foldl_mapDelete (inv : List (GoStr × GoStr)) :
    ∀ (cache : List (GoStr × GoStr)) (x : GoStr × GoStr),
      x ∈ inv.foldl (fun c e => mapDelete c e.1) cache ↔
        x ∈ cache ∧ ∀ e ∈ inv, x.1 ≠ e.1 := by
  induction inv with
  | nil => intro cache x; simp
  | cons e es ih =>
    intro cache x
    rw [List.foldl_cons, ih (mapDelete cache e.1) x]
    simp only [mapDelete, List.mem_filter, decide_eq_true_eq,
      List.forall_mem_cons]
    tauto

theorem volumeCacheInvalidateLoop_notexist
    (cache inv : List (GoStr × GoStr)) :
    volumeCacheInvalidateLoop (fun _ => some .notExist) cache inv =
      .ok cache := by
  induction inv with
  | nil => rfl
  | cons e es ih => exact ih

theorem volumeCacheInvalidate_success_mem
    (cache : List (GoStr × GoStr)) (path : GoStr)
    (m : List (GoStr × GoStr)) (ent : GoStr × GoStr)
    (hok : volumeCacheInvalidate (fun _ => none) cache path = .ok m)
    (hmem : ent ∈ cache) :
    ent ∈ m ↔ (ent.1 ++ [pathSeparator]).isPrefixOf path = false := by
  unfold volumeCacheInvalidate at hok
  rw [volumeCacheInvalidateLoop_success] at hok
  have hm :
      (cache.filter
          (fun ent => (ent.1 ++ [pathSeparator]).isPrefixOf path)).foldl
        (fun c e => mapDelete c e.1) cache = m := by
    simpa using hok
  rw [← hm, mem_foldl_mapDelete]
  constructor
  · intro h
    rcases h with ⟨_, hall⟩
    rw [Bool.eq_false_iff]
    intro hpf
    exact hall ent (List.mem_filter.mpr ⟨hmem, hpf⟩) rfl
  · intro hfalse
    refine ⟨hmem, ?_⟩
    intro e hef heq
    have hpe := (List.mem_filter.mp hef).2
    rw [← heq] at hpe
    rw [hfalse] at hpe
    exact Bool.false_ne_true hpe

/-- **C8 counterexample.** A COPY destined at /data/x while /data is a
preserved volume whose snapshot tar does not exist yet (os.Remove reports
IsNotExist — the ordinary state before the first RUN, since the tar is
created only by volumeCacheSave): the prefix test holds, yet the cache
entry is *not* removed, so removal is not "exactly when" the destination
begins with the volume path plus separator. -/
theorem volumeCacheInvalidate_notexist_keeps_entry :
    (("/data".toList ++ [pathSeparator]).isPrefixOf "/data/x".toList
      = true) ∧
    volumeCacheInvalidate (fun _ => some .notExist)
        [("/data".toList, "volume1.tar".toList)] "/data/x".toList =
      .ok [("/data".toList, "volume1.tar".toList)] := by
  exact ⟨by decide, rfl⟩

/-- **C8 (amended).** For every call `volumeCacheInvalidate(dest)`, the
entries *selected* for invalidation are exactly those whose volume path
`p` satisfies: `dest` begins with `p` followed by the path separator; a
selected entry is actually removed from the cache only when deleting its
snapshot file succeeds — when every snapshot removal succeeds the map
keeps exactly the non-selected entries, when the snapshot files do not
exist the map is unchanged, and any other removal failure aborts the
invalidation with a wrapped error as soon as an entry is selected.  In
particular a COPY or ADD whose destination string equals a preserved
volume path exactly (`dest == p`, no trailing separator) selects, and
hence removes, no cache entry, so that volume is still overwritten by the
restore after the next RUN. -/
theorem volumeCacheInvalidate_remove_semantics
    (cache : List (GoStr × GoStr)) (path : GoStr) :
    (∃ m, volumeCacheInvalidate (fun _ => none) cache path = .ok m) ∧
    (∀ m ent, volumeCacheInvalidate (fun _ => none) cache path = .ok m →
      ent ∈ cache →
      (ent ∈ m ↔ (ent.1 ++ [pathSeparator]).isPrefixOf path = false)) ∧
    (volumeCacheInvalidate (fun _ => some .notExist) cache path =
      .ok cache) ∧
    (∀ e, goIsNotExist e = false →
      volumeCacheInvalidate (fun _ => some e) cache path =
        if cache.filter
            (fun ent => (ent.1 ++ [pathSeparator]).isPrefixOf path) = []
        then .ok cache
        else .error (.wrapped ("error removing volume cache".toList) e)) ∧
    (∀ m ent, ent ∈ cache → path = ent.1 →
      volumeCacheInvalidate (fun _ => none) cache path = .ok m →
      ent ∈ m) := by
  refine ⟨?_, ?_, ?_, ?_, ?_⟩
  · exact ⟨_, volumeCacheInvalidateLoop_success cache _⟩
  · intro m ent hok hmem
    exact volumeCacheInvalidate_success_mem cache path m ent hok hmem
  · exact volumeCacheInvalidateLoop_notexist cache _
  · intro e he
    unfold volumeCacheInvalidate
    cases hinv : cache.filter
        (fun ent => (ent.1 ++ [pathSeparator]).isPrefixOf path) with
    | nil => simp [volumeCacheInvalidateLoop]
    | cons a rest =>
      have : ¬ ((a :: rest : List (GoStr × GoStr)) = []) := by simp
      rw [if_neg this]
      simp [volumeCacheInvalidateLoop, he]
  · intro m ent hmem hdest hok
    have hfalse : (ent.1 ++ [pathSeparator]).isPrefixOf path = false := by
      rw [hdest]; exact not_isPrefixOf_append_singleton ent.1 pathSeparator
    exact (volumeCacheInvalidate_success_mem cache path m ent hok
      hmem).mpr hfalse

/-- Witness for `volumeCacheInvalidate_remove_semantics`: with the single
preserved volume /data and its snapshot removable, a COPY destined at
/data/x removes the entry (the membership characterization at the computed
result map, the empty one), while a COPY destined exactly at /data keeps
the entry in the computed result map. -/
theorem volumeCacheInvalidate_remove_semantics_witness :
    (("/data".toList, "volume1.tar".toList) ∈
        ([] : List (GoStr × GoStr)) ↔
      (("/data".toList ++ [pathSeparator]).isPrefixOf "/data/x".toList
        = false)) ∧
    ("/data".toList, "volume1.tar".toList) ∈
      [("/data".toList, "volume1.tar".toList)] :=
  ⟨(volumeCacheInvalidate_remove_semantics
      [("/data".toList, "volume1.tar".toList)] "/data/x".toList).2.1
      [] ("/data".toList, "volume1.tar".toList) rfl (by decide),
   (volumeCacheInvalidate_remove_semantics
      [("/data".toList, "volume1.tar".toList)] "/data".toList).2.2.2.2
      [("/data".toList, "volume1.tar".toList)]
      ("/data".toList, "volume1.tar".toList) (by decide) rfl rfl⟩
